import Mathlib

set_option autoImplicit false

/-!
Verification development for the client-side transaction schedulers of the
repository: the bounded-concurrency `ParallelExecutor` with its resource
pool, and the `SerialTransactionBlockExecutor` with its version-prediction
cache.  The executor implementations themselves are not part of the source
tree (only their end-to-end tests are), so every operational definition
below is modelled from the natural-language specification (sections 3 to 7)
and checked against the behaviour pinned by the tests
`sdk/typescript/test/e2e/parallel-executor.test.ts` and the serial-executor
test file.
-/

namespace SuiExec

/-- Modelled from the spec: section 3 `ResourceHandle` - one exclusively
owned, versioned object usable to fund or be consumed by a transaction.
The implementation file defining it is missing from the source tree. -/
structure ResourceHandle where
  id : Nat
  version : Nat
  digest : Nat
  balance : Nat
deriving DecidableEq, Repr

/-- Modelled from the spec: section 3 `TransactionTask` - an ephemeral task
consumed once dispatched.  The payload builder is abstracted to the two
behaviours exercised by the e2e tests: `fails` marks a task built to target
a nonexistent object (it is rejected by the ledger), `transfersGas` marks a
task that transfers its entire funding handle away, consuming it in full. -/
structure TransactionTask where
  fails : Bool
  transfersGas : Bool
deriving DecidableEq, Repr

/-- Modelled from the spec: section 3 `ExecutionResult` - the per-task
outcome.  `digest?` is `some d` exactly when the task succeeded; `usedId`
and `usedVersion` record the object reference (id at version) the task
named when it was dispatched. -/
structure TaskResult where
  digest? : Option Nat
  usedId : Nat
  usedVersion : Nat
deriving DecidableEq, Repr

/-- Modelled from the spec: the effects a completed submission reports for
the funding handle: its new version and digest, and whether the handle was
consumed in full (the entire balance-bearing resource transferred away). -/
structure ExecEffects where
  newVersion : Nat
  newDigest : Nat
  consumedInFull : Bool
deriving DecidableEq, Repr

/-- Modelled from the spec: section 4.1 `release(handle, effects)` -
updates the version and digest of the handle from the effects of the
transaction and returns it to the available queue, unless the handle was
consumed in full, in which case it is dropped rather than returned.
`none` effects mean the handle was never used in any transaction. -/
def releaseHandle (avail : List ResourceHandle) (h : ResourceHandle)
    (eff : Option ExecEffects) : List ResourceHandle :=
  match eff with
  | none => avail ++ [h]
  | some e =>
    if e.consumedInFull then avail
    else avail ++ [{ h with version := e.newVersion, digest := e.newDigest }]

/-- Modelled from the spec: section 3 `PoolState` - the state owned
exclusively by the `ResourcePool`, mutated only through acquire, release
and refill. -/
structure PoolState where
  available : List ResourceHandle
  outstanding : Nat
  refillInFlight : Bool
deriving DecidableEq, Repr

/-- Modelled from the spec: section 4.1 `acquire()` in the immediate case -
returns an available handle if one exists, checking it out. -/
def PoolState.acquireReady (ps : PoolState) : Option (ResourceHandle × PoolState) :=
  match ps.available with
  | [] => none
  | h :: rest =>
    some (h, { ps with available := rest, outstanding := ps.outstanding + 1 })

/-- Modelled from the spec: section 4.1 release at the pool level - the
handle is returned (or dropped) via `releaseHandle` and one outstanding
slot is freed. -/
def PoolState.release (ps : PoolState) (h : ResourceHandle)
    (eff : Option ExecEffects) : PoolState :=
  { ps with available := releaseHandle ps.available h eff,
            outstanding := ps.outstanding - 1 }

/-- Modelled from the spec: sections 4.1, 4.2 and 5 - the whole state of a
`ParallelExecutor` together with its pool and an abstract ledger clock.
`queued` holds tasks not yet dispatched, `inFlight` the dispatched but
unresolved tasks paired with the handle each checked out, `source` the
larger handle that refill transactions split, `results` the completed
outcomes.  `clock` is the ledger clock from which every fresh version and
digest is drawn, `submissions` counts every transaction submitted to the
ledger (tasks and refill splits alike), and `maxObserved` records the
maximum number of simultaneously outstanding ledger submissions, exactly
as the e2e test instruments `executeTransactionBlock`. -/
structure ParState where
  queued : List TransactionTask
  available : List ResourceHandle
  inFlight : List (TransactionTask × ResourceHandle)
  refillInFlight : Bool
  source : Option ResourceHandle
  results : List TaskResult
  clock : Nat
  submissions : Nat
  maxObserved : Nat
deriving DecidableEq, Repr

/-- Modelled from the spec: `PoolState.outstanding` - the number of
dispatched-but-unresolved ledger submissions; a refill in flight occupies
one concurrency slot (section 4.1). -/
def ParState.outstanding (s : ParState) : Nat :=
  s.inFlight.length + (if s.refillInFlight then 1 else 0)

/-- Record the currently observed concurrency into the running maximum. -/
def bumpMax (s : ParState) : ParState :=
  { s with maxObserved := max s.maxObserved s.outstanding }

/-- Fresh fragment handles produced by one refill split: `b` handles whose
ids, versions and digests are drawn from the ledger clock. -/
def mkHandles (clock b : Nat) : List ResourceHandle :=
  (List.range b).map fun i =>
    { id := clock + i, version := clock + i, digest := clock + i, balance := 1 }

/-- Scheduler events: the interleaving of an execution is the sequence of
these events.  `dispatch` starts one queued task on one available handle,
`startRefill` submits a refill split, `finishRefill` resolves it, and
`complete n` resolves the `n`-th in-flight task submission. -/
inductive SchedStep where
  | dispatch
  | startRefill
  | finishRefill
  | complete (n : Nat)
deriving DecidableEq, Repr

/-- Modelled from the spec: sections 4.1 and 4.2 - one scheduler step of the
`ParallelExecutor` with concurrency bound `k` (maxPoolSize) and refill
fragment count `b` (coinBatchSize).  A step whose precondition fails is a
no-op.  Dispatch requires an available handle and a free concurrency slot;
a refill starts only when a task is waiting, no handle is available, a slot
is free, no other refill is in flight and a source handle exists; at
completion the outcome of the task depends only on the task itself, the
handle version and digest are advanced from the ledger clock, and the
handle is released - dropped when consumed in full, returned otherwise. -/
def step (k b : Nat) (s : ParState) : SchedStep → ParState
  | .dispatch =>
    match s.queued, s.available with
    | t :: q, h :: av =>
      if s.outstanding < k then
        bumpMax { s with queued := q, available := av,
                         inFlight := s.inFlight ++ [(t, h)],
                         submissions := s.submissions + 1 }
      else s
    | _, _ => s
  | .startRefill =>
    match s.queued, s.available, s.source with
    | _ :: _, [], some _ =>
      if s.outstanding < k then
        if s.refillInFlight then s
        else bumpMax { s with refillInFlight := true,
                              submissions := s.submissions + 1 }
      else s
    | _, _, _ => s
  | .finishRefill =>
    if s.refillInFlight then
      { s with refillInFlight := false,
               available := s.available ++ mkHandles s.clock b,
               source := s.source.map fun src =>
                 { src with version := s.clock + b, digest := s.clock + b },
               clock := s.clock + b + 1 }
    else s
  | .complete n =>
    match s.inFlight[n]? with
    | some (t, h) =>
      let eff : ExecEffects :=
        { newVersion := s.clock, newDigest := s.clock,
          consumedInFull := !t.fails && t.transfersGas }
      let res : TaskResult :=
        { digest? := if t.fails then none else some s.clock,
          usedId := h.id, usedVersion := h.version }
      { s with inFlight := s.inFlight.eraseIdx n,
               available := releaseHandle s.available h (some eff),
               results := s.results ++ [res],
               clock := s.clock + 1 }
    | none => s

/-- Run the scheduler over a whole interleaving. -/
def run (k b : Nat) (s : ParState) : List SchedStep → ParState
  | [] => s
  | e :: rest => run k b (step k b s e) rest

/-- Modelled from the spec: the initial executor state for a batch - all
tasks queued, no fragment handles yet, one real source handle, nothing
submitted. -/
def initState (tasks : List TransactionTask) : ParState :=
  { queued := tasks, available := [], inFlight := [], refillInFlight := false,
    source := some { id := 0, version := 0, digest := 0, balance := 1000 },
    results := [], clock := 1, submissions := 0, maxObserved := 0 }

/-- The batch of the first e2e test: ten independent ordinary tasks. -/
def tenTasks : List TransactionTask :=
  List.replicate 10 { fails := false, transfersGas := false }

/-- The eager event-loop interleaving of the first e2e test: all ten tasks
submitted at once, so dispatch happens whenever a handle and a slot are
free, and a refill starts whenever tasks wait on an empty pool. -/
def greedySched : List SchedStep :=
  [.startRefill, .finishRefill, .dispatch, .dispatch, .startRefill,
   .finishRefill, .dispatch] ++
  (List.replicate 7 [SchedStep.complete 0, SchedStep.dispatch]).flatten ++
  [.complete 0, .complete 0, .complete 0]

example :
    (run 3 2 (initState tenTasks) greedySched).submissions = 12 := by decide

example :
    (run 3 2 (initState tenTasks) greedySched).maxObserved = 3 := by decide

example :
    (run 3 2 (initState tenTasks) greedySched).results.length = 10 := by decide

/-- The concurrency bound invariant: the number of outstanding ledger
submissions, and the maximum ever observed, never exceed the configured
bound. -/
def BoundInv (k : Nat) (s : ParState) : Prop :=
  s.outstanding ≤ k ∧ s.maxObserved ≤ k

theorem boundInv_step (k b : Nat) (s : ParState) (e : SchedStep)
    (h : BoundInv k s) : BoundInv k (step k b s e) := by
  obtain ⟨h1, h2⟩ := h
  cases e with
  | dispatch =>
    simp only [step]
    split
    · split
      · rename_i hlt
        simp only [BoundInv, bumpMax, ParState.outstanding, List.length_append,
          List.length_cons, List.length_nil] at h1 h2 hlt ⊢
        omega
      · exact ⟨h1, h2⟩
    · exact ⟨h1, h2⟩
  | startRefill =>
    simp only [step]
    split
    · split
      · split
        · exact ⟨h1, h2⟩
        · rename_i hlt hrf
          simp only [BoundInv, bumpMax, ParState.outstanding] at h1 h2 hlt ⊢
          simp only [Bool.not_eq_true] at hrf
          simp only [hrf] at h1 hlt ⊢
          simp only [Bool.false_eq_true, if_false, if_true] at h1 hlt ⊢
          omega
      · exact ⟨h1, h2⟩
    · exact ⟨h1, h2⟩
  | finishRefill =>
    simp only [step]
    split
    · rename_i hrf
      simp only [BoundInv, ParState.outstanding] at h1 h2 ⊢
      simp only [hrf] at h1 ⊢
      simp only [if_pos rfl, if_neg Bool.false_ne_true]
      omega
    · exact ⟨h1, h2⟩
  | complete n =>
    simp only [step]
    split
    · have hle : (s.inFlight.eraseIdx n).length ≤ s.inFlight.length :=
        List.length_eraseIdx_le _ _
      simp only [BoundInv, ParState.outstanding] at h1 h2 ⊢
      omega
    · exact ⟨h1, h2⟩

theorem boundInv_run (k b : Nat) (sched : List SchedStep) (s : ParState)
    (h : BoundInv k s) : BoundInv k (run k b s sched) := by
  induction sched generalizing s with
  | nil => exact h
  | cons e rest ih => exact ih _ (boundInv_step k b s e h)

theorem boundInv_init (k : Nat) (tasks : List TransactionTask) :
    BoundInv k (initState tasks) := by
  constructor <;> simp [initState, ParState.outstanding]

theorem cons_eraseIdx_perm {α : Type} (l : List α) (n : Nat) (a : α)
    (h : l[n]? = some a) : (a :: l.eraseIdx n).Perm l := by
  induction l generalizing n with
  | nil => simp at h
  | cons x xs ih =>
    cases n with
    | zero =>
      simp only [List.getElem?_cons_zero, Option.some.injEq] at h
      subst h
      simp [List.eraseIdx]
    | succ m =>
      simp only [List.getElem?_cons_succ] at h
      have hp : (a :: x :: xs.eraseIdx m).Perm (x :: xs) :=
        (List.Perm.swap x a _).trans ((ih m h).cons x)
      simpa [List.eraseIdx] using hp

/-- Tasks not yet resolved: still queued, or dispatched but in flight. -/
def ParState.pendingTasks (s : ParState) : List TransactionTask :=
  s.queued ++ s.inFlight.map Prod.fst

/-- Number of tasks in a list built to fail. -/
def failsIn (l : List TransactionTask) : Nat := l.countP fun t => t.fails

/-- Number of failed outcomes among results. -/
def resFails (l : List TaskResult) : Nat := l.countP fun r => r.digest?.isNone

/-- Number of successful outcomes among results. -/
def resSuccs (l : List TaskResult) : Nat := l.countP fun r => r.digest?.isSome

theorem resFails_add_resSuccs (l : List TaskResult) :
    resFails l + resSuccs l = l.length := by
  induction l with
  | nil => rfl
  | cons r rest ih =>
    cases hd : r.digest? <;>
      simp [resFails, resSuccs, List.countP_cons, hd] at ih ⊢ <;> omega

theorem counts_step (k b : Nat) (s : ParState) (e : SchedStep) :
    failsIn (step k b s e).pendingTasks + resFails (step k b s e).results
        = failsIn s.pendingTasks + resFails s.results ∧
    (step k b s e).pendingTasks.length + (step k b s e).results.length
        = s.pendingTasks.length + s.results.length := by
  cases e with
  | dispatch =>
    simp only [step, ParState.pendingTasks, failsIn, resFails]
    split
    · split
      · rename_i hq ha hlt
        constructor <;>
          simp [hq, ha, bumpMax, List.countP_append, List.countP_cons,
            List.length_append] <;> omega
      · exact ⟨rfl, rfl⟩
    · exact ⟨rfl, rfl⟩
  | startRefill =>
    simp only [step, ParState.pendingTasks, failsIn, resFails]
    split
    · split
      · split
        · exact ⟨rfl, rfl⟩
        · exact ⟨rfl, rfl⟩
      · exact ⟨rfl, rfl⟩
    · exact ⟨rfl, rfl⟩
  | finishRefill =>
    simp only [step, ParState.pendingTasks, failsIn, resFails]
    split
    · exact ⟨rfl, rfl⟩
    · exact ⟨rfl, rfl⟩
  | complete n =>
    simp only [step, ParState.pendingTasks, failsIn, resFails]
    split
    · rename_i t h heq
      have hp := (cons_eraseIdx_perm s.inFlight n (t, h) heq).map Prod.fst
      have hcnt := hp.countP_eq fun tk => tk.fails
      have hlen := hp.length_eq
      constructor
      · cases ht : t.fails <;>
          simp [List.countP_append, List.countP_cons, ht] at hcnt ⊢ <;> omega
      · simp [List.length_append] at hlen ⊢
        omega
    · exact ⟨rfl, rfl⟩

theorem counts_run (k b : Nat) (sched : List SchedStep) (s : ParState) :
    failsIn (run k b s sched).pendingTasks + resFails (run k b s sched).results
        = failsIn s.pendingTasks + resFails s.results ∧
    (run k b s sched).pendingTasks.length + (run k b s sched).results.length
        = s.pendingTasks.length + s.results.length := by
  induction sched generalizing s with
  | nil => exact ⟨rfl, rfl⟩
  | cons e rest ih =>
    obtain ⟨a1, a2⟩ := counts_step k b s e
    obtain ⟨b1, b2⟩ := ih (step k b s e)
    exact ⟨b1.trans a1, b2.trans a2⟩

/-- The batch of the error-handling e2e test: ten tasks of which the five
odd-indexed ones target a nonexistent object and are built to fail. -/
def errTasks : List TransactionTask :=
  (List.range 10).map fun i => { fails := i % 2 == 1, transfersGas := false }

/-- C1: for every submission of a batch of tasks through the
`ParallelExecutor` constructed with maxPoolSize `k`, under every
interleaving the number of simultaneously dispatched-but-unresolved ledger
submissions (`ParState.outstanding`) never exceeds `k` at any point of the
execution (every intermediate point of a run is itself the result of a
schedule), and with N = 10 tasks and k = 3 the maximum observed concurrency
in the eager event-loop interleaving is exactly 3. -/
theorem claim_C1_concurrency_bound :
    (∀ (k b : Nat) (tasks : List TransactionTask) (sched : List SchedStep),
        (run k b (initState tasks) sched).outstanding ≤ k ∧
        (run k b (initState tasks) sched).maxObserved ≤ k) ∧
    (run 3 2 (initState tenTasks) greedySched).maxObserved = 3 := by
  constructor
  · intro k b tasks sched
    exact boundInv_run k b sched _ (boundInv_init k tasks)
  · decide

/-- C3: with N = 10 independent tasks, maxPoolSize 3 and coinBatchSize 2,
starting from a single real handle, the eager event-loop run submits
exactly 12 transactions to the ledger - the 10 task transactions plus the
initial split plus one further refill split needed to reach 3 concurrently
available handles - and completes all 10 tasks. -/
theorem claim_C3_submission_count :
    (run 3 2 (initState tenTasks) greedySched).submissions = 12 ∧
    (run 3 2 (initState tenTasks) greedySched).results.length = 10 ∧
    (run 3 2 (initState tenTasks) greedySched).queued = [] ∧
    (run 3 2 (initState tenTasks) greedySched).inFlight = [] := by
  refine ⟨?_, ?_, ?_, ?_⟩ <;> decide

/-- C2: in a batch of N = 10 tasks of which exactly 5 are built to fail
(they target a nonexistent object), every interleaving that completes the
batch yields exactly 5 failed results and exactly 5 successful results: a
failing task never causes any other in-flight or queued task to fail. -/
theorem claim_C2_fault_isolation :
    ∀ sched : List SchedStep,
      (run 3 2 (initState errTasks) sched).queued = [] →
      (run 3 2 (initState errTasks) sched).inFlight = [] →
      resFails (run 3 2 (initState errTasks) sched).results = 5 ∧
      resSuccs (run 3 2 (initState errTasks) sched).results = 5 := by
  intro sched hq hf
  obtain ⟨h1, h2⟩ := counts_run 3 2 sched (initState errTasks)
  rw [show (run 3 2 (initState errTasks) sched).pendingTasks = [] from by
        simp [ParState.pendingTasks, hq, hf]] at h1 h2
  have e1 : failsIn (initState errTasks).pendingTasks
      + resFails (initState errTasks).results = 5 := by decide
  have e2 : (initState errTasks).pendingTasks.length
      + (initState errTasks).results.length = 10 := by decide
  have e3 : failsIn ([] : List TransactionTask) = 0 := by decide
  have e4 : ([] : List TransactionTask).length = 0 := rfl
  have hlen := resFails_add_resSuccs (run 3 2 (initState errTasks) sched).results
  exact ⟨by omega, by omega⟩

/-- Witness for C2: the eager event-loop interleaving completes the batch
of five failing and five succeeding tasks, and the counts are 5 and 5. -/
theorem claim_C2_fault_isolation_witness :
    (run 3 2 (initState errTasks) greedySched).queued = [] ∧
    (run 3 2 (initState errTasks) greedySched).inFlight = [] ∧
    resFails (run 3 2 (initState errTasks) greedySched).results = 5 ∧
    resSuccs (run 3 2 (initState errTasks) greedySched).results = 5 := by
  have h := claim_C2_fault_isolation greedySched (by decide) (by decide)
  exact ⟨by decide, by decide, h.1, h.2⟩

/-- Every object version currently referenced anywhere in the executor:
versions of available handles, of handles checked out by in-flight tasks,
and the versions recorded as used by completed results. -/
def versList (s : ParState) : List Nat :=
  s.available.map (fun hd => hd.version)
    ++ s.inFlight.map (fun p => p.2.version)
    ++ s.results.map (fun r => r.usedVersion)

/-- Digests of the successful results. -/
def digList (l : List TaskResult) : List Nat := l.filterMap fun r => r.digest?

/-- Ledger-clock invariant: every version and every success digest in the
state was drawn from a past value of the clock, and no two coincide. -/
structure ClockInv (s : ParState) : Prop where
  versLt : ∀ v ∈ versList s, v < s.clock
  versNd : (versList s).Nodup
  digsLt : ∀ d ∈ digList s.results, d < s.clock
  digsNd : (digList s.results).Nodup

theorem versList_step (k b : Nat) (s : ParState) (e : SchedStep) :
    ∃ extra : List Nat,
      (versList (step k b s e)).Perm (versList s ++ extra) ∧
      (∀ v ∈ extra, s.clock ≤ v ∧ v < (step k b s e).clock) ∧
      extra.Nodup ∧ s.clock ≤ (step k b s e).clock := by
  cases e with
  | dispatch =>
    simp only [step]
    split
    · split
      · rename_i hq ha hlt
        refine ⟨[], ?_, by simp, List.nodup_nil, le_refl _⟩
        refine List.perm_iff_count.mpr fun a => ?_
        simp [versList, bumpMax, hq, ha, List.count_append, List.count_cons,
          beq_iff_eq]
        omega
      · exact ⟨[], by simp, by simp, List.nodup_nil, le_refl _⟩
    · exact ⟨[], by simp, by simp, List.nodup_nil, le_refl _⟩
  | startRefill =>
    simp only [step]
    split
    · split
      · split
        · exact ⟨[], by simp, by simp, List.nodup_nil, le_refl _⟩
        · exact ⟨[], by simp [versList, bumpMax], by simp,
            List.nodup_nil, le_refl _⟩
      · exact ⟨[], by simp, by simp, List.nodup_nil, le_refl _⟩
    · exact ⟨[], by simp, by simp, List.nodup_nil, le_refl _⟩
  | finishRefill =>
    simp only [step]
    split
    · refine ⟨(List.range b).map fun i => s.clock + i, ?_, ?_, ?_,
        show s.clock ≤ s.clock + b + 1 by omega⟩
      · refine List.perm_iff_count.mpr fun a => ?_
        have hmk : (mkHandles s.clock b).map (fun hd => hd.version)
            = (List.range b).map fun i => s.clock + i := by
          simp only [mkHandles, List.map_map]
          rfl
        simp [versList, List.count_append, hmk]
        omega
      · intro v hv
        simp only [List.mem_map, List.mem_range] at hv
        obtain ⟨i, hi, rfl⟩ := hv
        exact ⟨Nat.le_add_right _ _, show s.clock + i < s.clock + b + 1 by omega⟩
      · refine List.Nodup.map ?_ (List.nodup_range b)
        intro i j hij
        simp at hij
        omega
    · exact ⟨[], by simp, by simp, List.nodup_nil, le_refl _⟩
  | complete n =>
    simp only [step]
    split
    · rename_i t h heq
      have hp := (cons_eraseIdx_perm s.inFlight n (t, h) heq).map
        fun p => p.2.version
      cases hc : (!t.fails && t.transfersGas) with
      | true =>
        refine ⟨[], ?_, by simp, List.nodup_nil,
          show s.clock ≤ s.clock + 1 by omega⟩
        refine List.perm_iff_count.mpr fun a => ?_
        have hcnt := hp.count_eq a
        simp only [List.map_cons, List.count_cons, beq_iff_eq] at hcnt
        simp [versList, releaseHandle, hc, List.count_append, List.count_cons,
          beq_iff_eq]
        omega
      | false =>
        refine ⟨[s.clock], ?_, ?_, List.nodup_singleton _,
          show s.clock ≤ s.clock + 1 by omega⟩
        · refine List.perm_iff_count.mpr fun a => ?_
          have hcnt := hp.count_eq a
          simp only [List.map_cons, List.count_cons, beq_iff_eq] at hcnt
          simp [versList, releaseHandle, hc, List.count_append, List.count_cons,
            beq_iff_eq]
          omega
        · intro v hv
          rw [List.mem_singleton] at hv
          subst hv
          exact ⟨le_refl _, show s.clock < s.clock + 1 by omega⟩
    · exact ⟨[], by simp, by simp, List.nodup_nil, le_refl _⟩

theorem digs_step (k b : Nat) (s : ParState) (e : SchedStep) :
    ∃ dex : List Nat,
      digList (step k b s e).results = digList s.results ++ dex ∧
      (∀ d ∈ dex, s.clock ≤ d ∧ d < (step k b s e).clock) ∧
      dex.Nodup := by
  cases e with
  | dispatch =>
    simp only [step]
    split
    · split
      · exact ⟨[], by simp [bumpMax], by simp, List.nodup_nil⟩
      · exact ⟨[], by simp, by simp, List.nodup_nil⟩
    · exact ⟨[], by simp, by simp, List.nodup_nil⟩
  | startRefill =>
    simp only [step]
    split
    · split
      · split
        · exact ⟨[], by simp, by simp, List.nodup_nil⟩
        · exact ⟨[], by simp [bumpMax], by simp, List.nodup_nil⟩
      · exact ⟨[], by simp, by simp, List.nodup_nil⟩
    · exact ⟨[], by simp, by simp, List.nodup_nil⟩
  | finishRefill =>
    simp only [step]
    split
    · exact ⟨[], by simp, by simp, List.nodup_nil⟩
    · exact ⟨[], by simp, by simp, List.nodup_nil⟩
  | complete n =>
    simp only [step]
    split
    · rename_i t h heq
      cases ht : t.fails with
      | true =>
        exact ⟨[], by simp [digList, List.filterMap_append, ht],
          by simp, List.nodup_nil⟩
      | false =>
        refine ⟨[s.clock], ?_, ?_, List.nodup_singleton _⟩
        · simp [digList, List.filterMap_append, ht]
        · intro d hd
          rw [List.mem_singleton] at hd
          subst hd
          exact ⟨le_refl _, show s.clock < s.clock + 1 by omega⟩
    · exact ⟨[], by simp, by simp, List.nodup_nil⟩

theorem clockInv_step (k b : Nat) (s : ParState) (e : SchedStep)
    (h : ClockInv s) : ClockInv (step k b s e) := by
  obtain ⟨extra, hperm, hbnd, hnd, hclk⟩ := versList_step k b s e
  obtain ⟨dex, hdeq, hdbnd, hdnd⟩ := digs_step k b s e
  refine ⟨?_, ?_, ?_, ?_⟩
  · intro v hv
    rcases List.mem_append.mp (hperm.mem_iff.mp hv) with hold | hnew
    · exact lt_of_lt_of_le (h.versLt v hold) hclk
    · exact (hbnd v hnew).2
  · refine hperm.nodup_iff.mpr (List.nodup_append.mpr ⟨h.versNd, hnd, ?_⟩)
    intro a ha hb
    have h1 := h.versLt a ha
    have h2 := (hbnd a hb).1
    omega
  · intro d hd
    rw [hdeq] at hd
    rcases List.mem_append.mp hd with hold | hnew
    · exact lt_of_lt_of_le (h.digsLt d hold) hclk
    · exact (hdbnd d hnew).2
  · rw [hdeq]
    refine List.nodup_append.mpr ⟨h.digsNd, hdnd, ?_⟩
    intro a ha hb
    have h1 := h.digsLt a ha
    have h2 := (hdbnd a hb).1
    omega

theorem clockInv_run (k b : Nat) (sched : List SchedStep) (s : ParState)
    (h : ClockInv s) : ClockInv (run k b s sched) := by
  induction sched generalizing s with
  | nil => exact h
  | cons e rest ih => exact ih _ (clockInv_step k b s e h)

theorem clockInv_init (tasks : List TransactionTask) :
    ClockInv (initState tasks) := by
  refine ⟨?_, ?_, ?_, ?_⟩ <;> simp [versList, digList, initState]

/-- Object references named by the successful results: the id and version
each succeeded task used when it was dispatched. -/
def succUsedPairs (l : List TaskResult) : List (Nat × Nat) :=
  (l.filter fun r => r.digest?.isSome).map fun r => (r.usedId, r.usedVersion)

/-- C6: for every batch run through the ParallelExecutor, under every
interleaving all successful tasks produce pairwise-distinct result digests,
and no two succeeded tasks ever referenced the same object at the same
version: a handle returns to the pool only with a fresh version drawn from
the ledger clock, so it is never redispatched at a version already used. -/
theorem claim_C6_distinct_digests_and_versions :
    ∀ (k b : Nat) (tasks : List TransactionTask) (sched : List SchedStep),
      (digList (run k b (initState tasks) sched).results).Nodup ∧
      (succUsedPairs (run k b (initState tasks) sched).results).Nodup := by
  intro k b tasks sched
  have hinv := clockInv_run k b sched _ (clockInv_init tasks)
  refine ⟨hinv.digsNd, ?_⟩
  have hU : ((run k b (initState tasks) sched).results.map
      fun r => r.usedVersion).Nodup := by
    have hnd := hinv.versNd
    simp only [versList] at hnd
    exact (List.nodup_append.mp hnd).2.1
  have hsub : (((run k b (initState tasks) sched).results.filter
      fun r => r.digest?.isSome).map fun r => r.usedVersion).Nodup :=
    hU.sublist ((List.filter_sublist _).map _)
  have hmm : (((succUsedPairs (run k b (initState tasks) sched).results)).map
      Prod.snd).Nodup := by
    simpa [succUsedPairs, List.map_map, Function.comp] using hsub
  exact hmm.of_map

/-- The batch of the gas-transfer e2e test: ten tasks that each transfer
their entire funding handle away (consuming it in full). -/
def gasTasks : List TransactionTask :=
  List.replicate 10 { fails := false, transfersGas := true }

/-- An interleaving completing the gas-transfer batch: with every handle
consumed in full, the pool empties after every pair of tasks and refills
from the source handle. -/
def gasSched : List SchedStep :=
  (List.replicate 5 [SchedStep.startRefill, SchedStep.finishRefill,
    SchedStep.dispatch, SchedStep.dispatch,
    SchedStep.complete 0, SchedStep.complete 0]).flatten

/-- C7: at completion of an in-flight task, the handle is released: when
the task consumed it in full (the whole balance-bearing resource
transferred away by a successful execution) it is dropped from the pool,
otherwise it is returned to the available queue with version and digest
advanced from the effects of the transaction; and the executor still
completes a whole batch of ten consuming tasks, every one successful. -/
theorem claim_C7_release_semantics :
    (∀ (k b : Nat) (s : ParState) (n : Nat) (t : TransactionTask)
        (hd : ResourceHandle),
      s.inFlight[n]? = some (t, hd) →
        ((t.fails = false → t.transfersGas = true →
            (step k b s (.complete n)).available = s.available) ∧
         (t.transfersGas = false →
            (step k b s (.complete n)).available
              = s.available
                  ++ [{ hd with version := s.clock, digest := s.clock }]))) ∧
    ((run 3 2 (initState gasTasks) gasSched).results.length = 10 ∧
     resSuccs (run 3 2 (initState gasTasks) gasSched).results = 10 ∧
     (run 3 2 (initState gasTasks) gasSched).queued = [] ∧
     (run 3 2 (initState gasTasks) gasSched).inFlight = []) := by
  constructor
  · intro k b s n t hd hget
    constructor
    · intro hf ht
      simp [step, hget, releaseHandle, hf, ht]
    · intro ht
      simp [step, hget, releaseHandle, ht]
  · exact ⟨by decide, by decide, by decide, by decide⟩

/-- A concrete executor state with one in-flight task that transfers its
whole funding handle away. -/
def c7state : ParState :=
  { initState [] with
      inFlight := [({ fails := false, transfersGas := true },
                    { id := 7, version := 3, digest := 4, balance := 1 })] }

/-- A concrete executor state with one ordinary in-flight task that leaves
its funding handle intact. -/
def c7state2 : ParState :=
  { initState [] with
      inFlight := [({ fails := false, transfersGas := false },
                    { id := 8, version := 5, digest := 6, balance := 1 })] }

/-- Witness for C7 at concrete states: completing the full-consuming task
drops its handle, while completing the ordinary task returns the handle
with version and digest advanced to the ledger clock. -/
theorem claim_C7_release_semantics_witness :
    (step 3 2 c7state (.complete 0)).available = c7state.available ∧
    (step 3 2 c7state2 (.complete 0)).available
      = c7state2.available
          ++ [{ id := 8, version := 1, digest := 1, balance := 1 }] :=
  ⟨((claim_C7_release_semantics.1 3 2 c7state 0
      { fails := false, transfersGas := true }
      { id := 7, version := 3, digest := 4, balance := 1 }
      (by decide)).1) rfl rfl,
   ((claim_C7_release_semantics.1 3 2 c7state2 0
      { fails := false, transfersGas := false }
      { id := 8, version := 5, digest := 6, balance := 1 }
      (by decide)).2) rfl⟩

/-- C9: acquiring an available handle and then releasing it without using
it in any transaction leaves its recorded version and digest unchanged
(the very same handle value is returned) and brings the pool back to a
state containing that handle as available, with the outstanding count
restored. -/
theorem claim_C9_acquire_release_identity :
    ∀ (hd : ResourceHandle) (rest : List ResourceHandle) (o : Nat) (r : Bool),
      PoolState.acquireReady ⟨hd :: rest, o, r⟩
          = some (hd, ⟨rest, o + 1, r⟩) ∧
      PoolState.release ⟨rest, o + 1, r⟩ hd none = ⟨rest ++ [hd], o, r⟩ := by
  intro hd rest o r
  exact ⟨rfl, by simp [PoolState.release, releaseHandle]⟩

/-- Assoc-list lookup of the recorded version of an object id. -/
def lookupVersion (l : List (Nat × Nat)) (id : Nat) : Option Nat :=
  match l with
  | [] => none
  | (i, v) :: rest => if i = id then some v else lookupVersion rest id

/-- Assoc-list update (or insertion) of the version of an object id. -/
def setVersion (l : List (Nat × Nat)) (id v : Nat) : List (Nat × Nat) :=
  match l with
  | [] => [(id, v)]
  | (i, w) :: rest =>
    if i = id then (i, v) :: rest else (i, w) :: setVersion rest id v

/-- Modelled from the spec: the ledger as the serial executor sees it - the
recorded current version of every object, and the ledger clock from which
fresh versions and result digests are drawn.  The SerialChainExecutor
implementation is missing from the source tree. -/
structure SerialLedger where
  versions : List (Nat × Nat)
  clock : Nat
deriving DecidableEq, Repr

/-- Modelled from the spec: one step of a dependent chain - the object ids
it references and the object ids its effects create. -/
structure ChainTx where
  inputs : List Nat
  creates : List Nat
deriving DecidableEq, Repr

/-- The result identifier (digest) of a successful chain execution. -/
structure ChainResult where
  digest : Nat
deriving DecidableEq, Repr

/-- Modelled from the spec: section 4.3 - the SerialChainExecutor state:
its `VersionCache` (object id to predicted version), the count of real
version-lookup invocations against the ledger, and the ledger itself. -/
structure SerialState where
  cache : List (Nat × Nat)
  lookups : Nat
  ledger : SerialLedger
deriving DecidableEq, Repr

/-- The source the executor resolves references from: the cache when every
input of the transaction is predicted there, otherwise the ledger (a real
lookup). -/
def SerialState.resolveSrc (st : SerialState) (tx : ChainTx) :
    List (Nat × Nat) :=
  if tx.inputs.all (fun i => (lookupVersion st.cache i).isSome) then st.cache
  else st.ledger.versions

/-- A submission succeeds exactly when every referenced object resolves to
a version matching the version currently recorded on the ledger. -/
def SerialState.willSucceed (st : SerialState) (tx : ChainTx) : Bool :=
  tx.inputs.all fun i =>
    (lookupVersion (st.resolveSrc tx) i).isSome &&
      lookupVersion (st.resolveSrc tx) i == lookupVersion st.ledger.versions i

/-- Modelled from the spec: section 4.3 `executeTransactionBlock` of the
SerialChainExecutor - resolves references from the cache, or with one real
lookup on first use; submits; on success updates the cache with the newly
predicted object versions parsed from the effects; on any failure discards
the entire cache and propagates the error without consuming the
transaction. -/
def SerialState.execute (st : SerialState) (tx : ChainTx) :
    Except Unit ChainResult × SerialState :=
  let lookups' := if tx.inputs.all (fun i => (lookupVersion st.cache i).isSome)
    then st.lookups else st.lookups + 1
  if st.willSucceed tx then
    let c := st.ledger.clock
    let bump := fun l : List (Nat × Nat) =>
      (tx.inputs ++ tx.creates).foldl (fun acc i => setVersion acc i c) l
    (Except.ok { digest := c },
     { cache := bump (st.resolveSrc tx), lookups := lookups',
       ledger := { versions := bump st.ledger.versions, clock := c + 1 } })
  else
    (Except.error (), { st with cache := [], lookups := lookups' })

/-- Modelled from the spec: section 4.3 concurrency model - concurrently
issued calls are queued and drained one at a time in a strict total order,
so a batch of calls is a sequential fold of `execute`. -/
def runChain (st : SerialState) :
    List ChainTx → List (Except Unit ChainResult) × SerialState
  | [] => ([], st)
  | tx :: rest =>
    let p := st.execute tx
    let q := runChain p.2 rest
    (p.1 :: q.1, q.2)

/-- A transaction executed out of band (directly through the client,
bypassing the executor): it advances the ledger-recorded versions of the
objects it touches, behind the back of the cache. -/
def SerialLedger.externalBump (l : SerialLedger) (ids : List Nat) :
    SerialLedger :=
  { versions := ids.foldl (fun acc i => setVersion acc i l.clock) l.versions,
    clock := l.clock + 1 }

deriving instance DecidableEq for Except

/-- Whether a chain call succeeded. -/
def okResult (r : Except Unit ChainResult) : Bool :=
  match r with
  | .ok _ => true
  | .error _ => false

/-- The digest of a chain call, when it succeeded. -/
def resultDigest (r : Except Unit ChainResult) : Option Nat :=
  match r with
  | .ok x => some x.digest
  | .error _ => none

/-- Digests of the successful calls of a chain. -/
def okDigests (rs : List (Except Unit ChainResult)) : List Nat :=
  rs.filterMap resultDigest

/-- Initial serial-executor state of the e2e tests: empty cache, no lookups
yet, one owned object (the gas coin, id 0) on the ledger. -/
def initSerial : SerialState :=
  { cache := [], lookups := 0, ledger := { versions := [(0, 1)], clock := 2 } }

/-- The first transaction of the serial tests: splits the gas coin (id 0),
creating a new coin (id 1). -/
def tx1 : ChainTx := { inputs := [0], creates := [1] }

/-- The subsequent dependent transactions: each transfers the new coin
(id 1) paying gas with coin 0. -/
def txNext : ChainTx := { inputs := [0, 1], creates := [] }

/-- The chain of K = 4 dependent transactions of the cache-amortization
test. -/
def chain4 : List ChainTx := [tx1, txNext, txNext, txNext]

theorem execute_clock_spec (st : SerialState) (tx : ChainTx) :
    (okResult (st.execute tx).1 = true →
      resultDigest (st.execute tx).1 = some st.ledger.clock ∧
      (st.execute tx).2.ledger.clock = st.ledger.clock + 1) ∧
    (okResult (st.execute tx).1 = false →
      (st.execute tx).2.ledger.clock = st.ledger.clock) := by
  by_cases hw : st.willSucceed tx = true <;>
    simp [SerialState.execute, hw, okResult, resultDigest]

theorem runChain_digests (st : SerialState) (txs : List ChainTx) :
    (∀ d ∈ okDigests (runChain st txs).1,
        st.ledger.clock ≤ d ∧ d < (runChain st txs).2.ledger.clock + 1) ∧
    (okDigests (runChain st txs).1).Nodup ∧
    st.ledger.clock ≤ (runChain st txs).2.ledger.clock := by
  induction txs generalizing st with
  | nil => simp [runChain, okDigests]
  | cons tx rest ih =>
    obtain ⟨ihb, ihnd, ihclk⟩ := ih (st.execute tx).2
    have hrc1 : (runChain st (tx :: rest)).1
        = (st.execute tx).1 :: (runChain (st.execute tx).2 rest).1 := rfl
    have hrc2 : (runChain st (tx :: rest)).2
        = (runChain (st.execute tx).2 rest).2 := rfl
    rw [hrc1, hrc2]
    by_cases hok : okResult (st.execute tx).1 = true
    · obtain ⟨hdig, hclk⟩ := (execute_clock_spec st tx).1 hok
      have hfm : okDigests
            ((st.execute tx).1 :: (runChain (st.execute tx).2 rest).1)
          = st.ledger.clock :: okDigests (runChain (st.execute tx).2 rest).1 := by
        simp [okDigests, List.filterMap_cons, hdig]
      rw [hfm]
      refine ⟨?_, ?_, ?_⟩
      · intro d hd
        rcases List.mem_cons.mp hd with rfl | hmem
        · have := ihclk
          omega
        · have := ihb d hmem
          omega
      · refine List.Nodup.cons ?_ ihnd
        intro hmem
        have := (ihb _ hmem).1
        omega
      · omega
    · have hok' : okResult (st.execute tx).1 = false := by
        cases hr : okResult (st.execute tx).1
        · rfl
        · exact absurd hr hok
      have hclk := (execute_clock_spec st tx).2 hok'
      have hfm : okDigests
            ((st.execute tx).1 :: (runChain (st.execute tx).2 rest).1)
          = okDigests (runChain (st.execute tx).2 rest).1 := by
        have hnone : resultDigest (st.execute tx).1 = none := by
          cases hr : (st.execute tx).1 with
          | ok x => rw [hr] at hok'; simp [okResult] at hok'
          | error e => simp [resultDigest]
        simp [okDigests, List.filterMap_cons, hnone]
      rw [hfm]
      refine ⟨?_, ihnd, by omega⟩
      intro d hd
      have := ihb d hd
      omega

/-- C8: concurrently issued calls to one SerialChainExecutor are queued and
drained one at a time in a strict total order (the model executes a batch
as a sequential fold, each call starting only from the state the previous
call resolved to); for every state and batch the successful calls carry
pairwise-distinct result digests, and the chain of four dependent
transactions of the e2e test all succeed with distinct digests. -/
theorem claim_C8_serial_total_order :
    (∀ (st : SerialState) (txs : List ChainTx),
        (okDigests (runChain st txs).1).Nodup) ∧
    ((∀ r ∈ (runChain initSerial chain4).1, okResult r = true) ∧
     (okDigests (runChain initSerial chain4).1).Nodup) := by
  constructor
  · intro st txs
    exact (runChain_digests st txs).2.1
  · exact ⟨by decide, by decide⟩

/-- Witness for C8: the first call of the concrete chain is among its
results and succeeded. -/
theorem claim_C8_serial_total_order_witness :
    okResult (initSerial.execute tx1).1 = true :=
  claim_C8_serial_total_order.2.1 (initSerial.execute tx1).1 (by decide)

/-- C5: the universal part - a call whose inputs are all predicted by the
VersionCache performs no real lookup; and the concrete chain of K = 4
dependent transactions with no failures invokes the real version-lookup
exactly once, with every call succeeding. -/
theorem claim_C5_cache_amortization :
    (∀ (st : SerialState) (tx : ChainTx),
        (tx.inputs.all fun i => (lookupVersion st.cache i).isSome) = true →
        (st.execute tx).2.lookups = st.lookups) ∧
    ((runChain initSerial chain4).2.lookups = 1 ∧
     ∀ r ∈ (runChain initSerial chain4).1, okResult r = true) := by
  constructor
  · intro st tx hc
    by_cases hw : st.willSucceed tx = true <;>
      simp [SerialState.execute, hw, hc]
  · exact ⟨by decide, by decide⟩

/-- Witness for C5: after the first transaction seeded the cache, the next
dependent transaction resolves every input from the cache and performs no
additional lookup. -/
theorem claim_C5_cache_amortization_witness :
    ((txNext.inputs.all fun i =>
        (lookupVersion (initSerial.execute tx1).2.cache i).isSome) = true) ∧
    ((initSerial.execute tx1).2.execute txNext).2.lookups
        = (initSerial.execute tx1).2.lookups ∧
    okResult (initSerial.execute tx1).1 = true :=
  ⟨by decide,
   claim_C5_cache_amortization.1 (initSerial.execute tx1).2 txNext (by decide),
   claim_C5_cache_amortization.2.2 (initSerial.execute tx1).1 (by decide)⟩

/-- The serial-executor state of the cache-reset test right before the
failing call: the first transaction succeeded and seeded the cache, and an
out-of-band client transaction then advanced the ledger versions of both
objects behind the back of the cache. -/
def c4Stale : SerialState :=
  { (initSerial.execute tx1).2 with
      ledger := (initSerial.execute tx1).2.ledger.externalBump [0, 1] }

/-- C4: on every failure of a SerialChainExecutor execution the entire
VersionCache is discarded (never a subset - the resulting cache is empty),
cache entries are only ever advanced by the effects of a successful
execution (a failure leaves nothing in the cache to advance), and in the
concrete cache-reset scenario the next successful call performs a fresh
real lookup and returns a result identifier different from both the failed
attempt and the earlier success. -/
theorem claim_C4_failure_discards_cache :
    (∀ (st : SerialState) (tx : ChainTx),
        okResult (st.execute tx).1 = false → (st.execute tx).2.cache = []) ∧
    (okResult (c4Stale.execute txNext).1 = false ∧
     (c4Stale.execute txNext).2.cache = [] ∧
     ((c4Stale.execute txNext).2.execute txNext).2.lookups
        = (c4Stale.execute txNext).2.lookups + 1 ∧
     okResult ((c4Stale.execute txNext).2.execute txNext).1 = true ∧
     resultDigest ((c4Stale.execute txNext).2.execute txNext).1
        ≠ resultDigest (initSerial.execute tx1).1 ∧
     resultDigest ((c4Stale.execute txNext).2.execute txNext).1
        ≠ resultDigest (c4Stale.execute txNext).1) := by
  constructor
  · intro st tx h
    by_cases hw : st.willSucceed tx = true
    · simp [SerialState.execute, hw, okResult] at h
    · simp [SerialState.execute, hw]
  · exact ⟨by decide, by decide, by decide, by decide, by decide, by decide⟩

/-- Witness for C4 at the concrete stale-cache state: the failing call
leaves an empty cache. -/
theorem claim_C4_failure_discards_cache_witness :
    okResult (c4Stale.execute txNext).1 = false ∧
    (c4Stale.execute txNext).2.cache = [] :=
  ⟨by decide, claim_C4_failure_discards_cache.1 c4Stale txNext (by decide)⟩

/-- C10: a failed execution does not consume the submitted transaction:
the very same transaction value that just failed, resubmitted unchanged
after the failure cleared the stale cache, succeeds. -/
theorem claim_C10_task_not_consumed :
    okResult (c4Stale.execute txNext).1 = false ∧
    okResult ((c4Stale.execute txNext).2.execute txNext).1 = true :=
  ⟨by decide, by decide⟩

end SuiExec
